import Mathlib

/-!
Verification development for the highlight/tag persistence and reconciliation
layer of the react-pdf-highlighter example app.

Embedded source files:
- `src/example/src/services/database.ts` (the `DatabaseService` class): PDF,
  highlight, tag and highlight-tag CRUD over a local SQLite store.
- `src/example/src/components/TagModal.tsx` (`handleSave`): the tag-set
  reconciliation algorithm (diff by tag id, apply adds then removals).
- `src/example/src/App.tsx` (`openPdf`): the document registration flow
  (lookup by path, insert or bump `last_opened`).

The SQLite store is modelled as a record of four tables (lists of rows).
Timestamps (`datetime('now')`) are modelled as a `Nat` parameter `now`
threaded into the operations that write timestamps.  `lastInsertId` for
integer primary keys is modelled as max existing id + 1, the SQLite rowid
assignment rule.  Fallible statements return the resulting state together
with an `Except` outcome, so that partial effects of failed compound
operations stay observable.
-/

namespace RPH

/-- Modelled from the spec: ASCII case folding of a single character, mapping
the letters A..Z to their lowercase code points and leaving every other
character unchanged.  The schema bootstrap (the migration that declares the
`tags.name` UNIQUE constraint and its collation) is not under `src/`; the spec
(sections 3 and 6) requires tag names to be compared case-insensitively, which
is the SQLite NOCASE collation, folding exactly the ASCII letters. -/
def foldChar (c : Char) : Nat :=
  if 'A' ≤ c ∧ c ≤ 'Z' then c.toNat + 32 else c.toNat

/-- Modelled from the spec: case-insensitive string equality, the comparison
the store applies to `tags.name` (NOCASE collation, see `foldChar`). -/
def nocaseEq (a b : String) : Bool :=
  a.data.map foldChar == b.data.map foldChar

/-- Bytewise (code-point) lexicographic order on character lists: the SQLite
BINARY collation used by every `ORDER BY ... ASC` on text columns. -/
def lexLe : List Char → List Char → Bool
  | [], _ => true
  | _ :: _, [] => false
  | a :: as, b :: bs =>
    if a.toNat < b.toNat then true
    else if b.toNat < a.toNat then false
    else lexLe as bs

/-- Modelled from the spec: a scaled rectangle of the position geometry
(`Scaled` of the library d.ts, which is not under `src/`); the coordinate
fields are opaque to the persistence layer, which only copies them, so they
are modelled as integers. -/
structure Scaled where
  x1 : Int
  y1 : Int
  x2 : Int
  y2 : Int
  width : Int
  height : Int
deriving Repr, DecidableEq

/-- Modelled from the spec: the structured position geometry of a highlight
(`ScaledPosition` of the library, not under `src/`): a bounding rectangle,
text-range rectangles, a page number, and an optional coordinate-space flag.
`position_data` round-trips through serialization exactly (spec section 6),
so the stored column is modelled as this structure itself. -/
structure Position where
  boundingRect : Scaled
  rects : List Scaled
  pageNumber : Nat
  usePdfCoordinates : Option Bool
deriving Repr, DecidableEq

/-- Row of the `pdfs` table (interface `PdfRecord` in database.ts). -/
structure PdfRecord where
  id : Nat
  name : String
  path : String
  date_added : Nat
  last_opened : Nat
deriving Repr, DecidableEq

/-- Row of the `highlights` table (interface `HighlightRecord` in database.ts). -/
structure HighlightRecord where
  id : Nat
  pdf_id : Nat
  highlight_id : String
  content_text : Option String
  content_image : Option String
  comment_text : Option String
  comment_emoji : Option String
  position_data : Position
  page_number : Nat
  created_at : Nat
deriving Repr, DecidableEq

/-- Row of the `tags` table (interface `Tag` in database.ts). -/
structure Tag where
  id : Nat
  name : String
  created_at : Nat
deriving Repr, DecidableEq

/-- Row of the `highlight_tags` table (interface `HighlightTag` in database.ts). -/
structure HighlightTag where
  highlight_id : String
  tag_id : Nat
deriving Repr, DecidableEq

/-- The four tables of the SQLite database `pdf_highlighter.db`. -/
structure DBState where
  pdfs : List PdfRecord
  highlights : List HighlightRecord
  tags : List Tag
  highlight_tags : List HighlightTag
deriving Repr, DecidableEq

/-- Failures a statement can produce: the two uniqueness violations the code
inspects (`UNIQUE constraint failed` on `tags.name`, and the duplicate-link
violation), the descriptive not-persisted error thrown by `addHighlightTag`,
and an injected environment failure used to model a statement failing inside
the `bulkDeleteTags` transaction. -/
inductive DbErr where
  | uniqueTagName
  | uniqueLink
  | highlightNotFound (highlightId : String)
  | injectedFailure
deriving Repr, DecidableEq

deriving instance DecidableEq for Except

/-- SQLite rowid assignment for an integer primary key: one more than the
largest id in the table. -/
def maxId (ids : List Nat) : Nat := ids.foldr max 0

/-- Next id assigned to an inserted tag row (`result.lastInsertId`). -/
def nextTagId (s : DBState) : Nat := maxId (s.tags.map Tag.id) + 1

/-- Next id assigned to an inserted pdf row (`result.lastInsertId`). -/
def nextPdfId (s : DBState) : Nat := maxId (s.pdfs.map PdfRecord.id) + 1

/-- `addPdf`: INSERT INTO pdfs (name, path, date_added, last_opened)
VALUES (?, ?, now, now); returns `lastInsertId`. -/
def addPdf (now : Nat) (s : DBState) (name path : String) : DBState × Nat :=
  let id := nextPdfId s
  ({ s with pdfs := s.pdfs ++ [⟨id, name, path, now, now⟩] }, id)

/-- `getPdfByPath`: SELECT * FROM pdfs WHERE path = ? LIMIT 1. -/
def getPdfByPath (s : DBState) (path : String) : Option PdfRecord :=
  s.pdfs.find? (fun p => p.path == path)

/-- `updatePdfLastOpened`: UPDATE pdfs SET last_opened = now WHERE id = ?. -/
def updatePdfLastOpened (now : Nat) (s : DBState) (id : Nat) : DBState :=
  { s with pdfs := s.pdfs.map (fun p =>
      if p.id == id then { p with last_opened := now } else p) }

/-- `deletePdf`: DELETE FROM pdfs WHERE id = ? — the only statement the
source executes for a document deletion. -/
def deletePdf (s : DBState) (id : Nat) : DBState :=
  { s with pdfs := s.pdfs.filter (fun p => !(p.id == id)) }

/-- The database portion of `openPdf` in App.tsx (the flow the spec names
`registerDocument`): look up by path; if absent, insert with
`date_added = last_opened = now` and build the returned record from the new
id; if present, bump `last_opened` and return the fetched record. -/
def registerDocument (now : Nat) (s : DBState) (name path : String) :
    DBState × PdfRecord :=
  match getPdfByPath s path with
  | none =>
    let r := addPdf now s name path
    (r.1, ⟨r.2, name, path, now, now⟩)
  | some found =>
    (updatePdfLastOpened now s found.id, found)

/-- A partial position (`Partial ScaledPosition` in updateHighlight): `none`
models a key that is absent from the patch object. -/
structure PositionPatch where
  boundingRect : Option Scaled := none
  rects : Option (List Scaled) := none
  pageNumber : Option Nat := none
  usePdfCoordinates : Option Bool := none
deriving Repr, DecidableEq

/-- A partial content (`Partial Content` in updateHighlight): `none` models a
key that is absent from the patch object. -/
structure ContentPatch where
  text : Option String := none
  image : Option String := none
deriving Repr, DecidableEq

/-- The JavaScript object spread `{ ...currentPosition, ...position }` of
`updateHighlight`: every key present in the patch overrides the stored value,
every absent key keeps it. -/
def mergePosition (cur : Position) (p : PositionPatch) : Position where
  boundingRect := p.boundingRect.getD cur.boundingRect
  rects := p.rects.getD cur.rects
  pageNumber := p.pageNumber.getD cur.pageNumber
  usePdfCoordinates :=
    match p.usePdfCoordinates with
    | some b => some b
    | none => cur.usePdfCoordinates

/-- `updateHighlight`: SELECT the current row by `highlight_id` (LIMIT 1);
silently return if absent; otherwise UPDATE content_text, content_image and
position_data (merged via object spread) WHERE highlight_id = ?.  The new
column values are computed once from the fetched row, exactly as the source
binds them. -/
def updateHighlight (s : DBState) (highlightId : String)
    (position : PositionPatch) (content : ContentPatch) : DBState :=
  match s.highlights.find? (fun r => r.highlight_id == highlightId) with
  | none => s
  | some cur =>
    let updatedPosition := mergePosition cur.position_data position
    let newText := match content.text with
      | some t => some t
      | none => cur.content_text
    let newImage := match content.image with
      | some i => some i
      | none => cur.content_image
    { s with highlights := s.highlights.map (fun r =>
        if r.highlight_id == highlightId then
          { r with
            content_text := newText
            content_image := newImage
            position_data := updatedPosition }
        else r) }

/-- The raw INSERT INTO tags (name) VALUES (?) of `addTag`: fails with the
uniqueness violation when a row with the same name (NOCASE) already exists,
otherwise appends the row and returns `lastInsertId`. -/
def insertTagRow (now : Nat) (s : DBState) (name : String) :
    DBState × Except DbErr Nat :=
  if s.tags.any (fun t => nocaseEq t.name name) then
    (s, .error .uniqueTagName)
  else
    let id := nextTagId s
    ({ s with tags := s.tags ++ [⟨id, name, now⟩] }, .ok id)

/-- `getTagByName`: SELECT * FROM tags WHERE name = ? LIMIT 1, under the
NOCASE collation of the `name` column. -/
def getTagByName (s : DBState) (name : String) : Option Tag :=
  s.tags.find? (fun t => nocaseEq t.name name)

/-- `addTag`: attempt the INSERT; on a uniqueness violation (the check
`isUniqueConstraintError` of the source) fetch the existing row by name and
return its id; if the fetch finds nothing, rethrow; any other error is
rethrown as well. -/
def addTag (now : Nat) (s : DBState) (name : String) :
    DBState × Except DbErr Nat :=
  match insertTagRow now s name with
  | (s1, .ok id) => (s1, .ok id)
  | (s1, .error e) =>
    if e = .uniqueTagName then
      match getTagByName s1 name with
      | some t => (s1, .ok t.id)
      | none => (s1, .error e)
    else (s1, .error e)

/-- `highlightExists`: SELECT COUNT(*) > 0 FROM highlights WHERE
highlight_id = ?. -/
def highlightExists (s : DBState) (highlightId : String) : Bool :=
  s.highlights.any (fun h => h.highlight_id == highlightId)

/-- The link INSERT of `addHighlightTag` together with its catch: a duplicate
(highlight_id, tag_id) pair raises the composite-uniqueness violation, which
the source treats as success (no-op). -/
def addLink (s : DBState) (highlightId : String) (tagId : Nat) : DBState :=
  if s.highlight_tags.any (fun l =>
      l.highlight_id == highlightId && l.tag_id == tagId) then
    s
  else
    { s with highlight_tags := s.highlight_tags ++ [⟨highlightId, tagId⟩] }

/-- `addHighlightTag`: verify the highlight exists (else throw the
descriptive not-persisted error before touching tags or links), resolve the
tag name via `addTag` (propagating its failure), then insert the link,
treating a duplicate link as success. -/
def addHighlightTag (now : Nat) (s : DBState)
    (highlightId tagName : String) : DBState × Except DbErr Unit :=
  if !highlightExists s highlightId then
    (s, .error (.highlightNotFound highlightId))
  else
    match addTag now s tagName with
    | (s1, .error e) => (s1, .error e)
    | (s1, .ok tagId) => (addLink s1 highlightId tagId, .ok ())

/-- `removeHighlightTag`: DELETE FROM highlight_tags WHERE highlight_id = ?
AND tag_id = ?; no error if absent. -/
def removeHighlightTag (s : DBState) (highlightId : String) (tagId : Nat) :
    DBState :=
  { s with highlight_tags := s.highlight_tags.filter (fun l =>
      !(l.highlight_id == highlightId && l.tag_id == tagId)) }

/-- Alphabetical tag order: ORDER BY t.name ASC under the BINARY collation. -/
def tagNameLe (a b : Tag) : Prop := lexLe a.name.data b.name.data = true

instance : DecidableRel tagNameLe := fun a b => by
  unfold tagNameLe; infer_instance

/-- `getHighlightTags`: SELECT t.* FROM tags t INNER JOIN highlight_tags ht
ON t.id = ht.tag_id WHERE ht.highlight_id = ? ORDER BY t.name ASC. -/
def getHighlightTags (s : DBState) (highlightId : String) : List Tag :=
  List.insertionSort tagNameLe
    (s.tags.filter (fun t => s.highlight_tags.any (fun l =>
      l.highlight_id == highlightId && l.tag_id == t.id)))

/-- The add loop of `handleSave` in TagModal.tsx: apply `addHighlightTag`
(name-based) to each tag to add, rethrowing the first failure. -/
def applyTagAdds (now : Nat) (s : DBState) (highlightId : String) :
    List Tag → DBState × Except DbErr Unit
  | [] => (s, .ok ())
  | t :: rest =>
    match addHighlightTag now s highlightId t.name with
    | (s1, .ok _) => applyTagAdds now s1 highlightId rest
    | (s1, .error e) => (s1, .error e)

/-- The removal loop of `handleSave` in TagModal.tsx: apply
`removeHighlightTag` (id-based) to each tag to remove. -/
def applyTagRemovals (s : DBState) (highlightId : String) :
    List Tag → DBState
  | [] => s
  | t :: rest => applyTagRemovals (removeHighlightTag s highlightId t.id)
      highlightId rest

/-- The `tagsToAdd` diff of `handleSave` in TagModal.tsx: the final (desired)
tags whose id does not occur among the original tags of the highlight. -/
def tagsToAdd (s : DBState) (highlightId : String) (finalTags : List Tag) :
    List Tag :=
  finalTags.filter (fun f =>
    !(getHighlightTags s highlightId).any (fun o => o.id == f.id))

/-- The `tagsToRemove` diff of `handleSave` in TagModal.tsx: the original tags
of the highlight whose id does not occur among the final (desired) tags. -/
def tagsToRemove (s : DBState) (highlightId : String) (finalTags : List Tag) :
    List Tag :=
  (getHighlightTags s highlightId).filter (fun o =>
    !finalTags.any (fun f => f.id == o.id))

/-- The reconciliation core of `handleSave` in TagModal.tsx: fetch the
original tags, diff by tag id against the final (desired) tags (both diffs
are computed from the original state, before any mutation), apply all
additions, then all removals. -/
def reconcileHighlightTags (now : Nat) (s : DBState) (highlightId : String)
    (finalTags : List Tag) : DBState × Except DbErr Unit :=
  match applyTagAdds now s highlightId (tagsToAdd s highlightId finalTags) with
  | (s1, .ok _) =>
    (applyTagRemovals s1 highlightId (tagsToRemove s highlightId finalTags),
     .ok ())
  | (s1, .error e) => (s1, .error e)

/-- `bulkDeleteTags`: early return on an empty id list; otherwise BEGIN
TRANSACTION, DELETE the links whose tag_id is in the set, DELETE the tag rows,
COMMIT; on any failure ROLLBACK (restoring the pre-call state) and rethrow.
The two booleans inject an environment failure into the first respectively
second DELETE, modelling the try/catch of the source. -/
def bulkDeleteTags (failLinks failTags : Bool) (s : DBState)
    (tagIds : List Nat) : DBState × Except DbErr Unit :=
  if tagIds.isEmpty then (s, .ok ())
  else if failLinks then (s, .error .injectedFailure)
  else
    let s1 := { s with highlight_tags := s.highlight_tags.filter (fun l =>
      !tagIds.contains l.tag_id) }
    if failTags then (s, .error .injectedFailure)
    else ({ s1 with tags := s1.tags.filter (fun t =>
      !tagIds.contains t.id) }, .ok ())

/-- Number of links carrying the given tag id: the COUNT(ht.highlight_id) of
the LEFT JOIN aggregate in `getTagUsageStats`. -/
def tagUsageCount (s : DBState) (tagId : Nat) : Nat :=
  (s.highlight_tags.filter (fun l => l.tag_id == tagId)).length

/-- The ORDER BY count DESC, t.name ASC of `getTagUsageStats`: higher counts
first, ties by ascending name (BINARY collation). -/
def usageLe (a b : Tag × Nat) : Prop :=
  b.2 < a.2 ∨ (a.2 = b.2 ∧ lexLe a.1.name.data b.1.name.data = true)

instance : DecidableRel usageLe := fun a b => by
  unfold usageLe; infer_instance

/-- `getTagUsageStats`: SELECT t.*, COUNT(ht.highlight_id) FROM tags t LEFT
JOIN highlight_tags ht ON t.id = ht.tag_id GROUP BY t.id, t.name, t.created_at
ORDER BY count DESC, t.name ASC. -/
def getTagUsageStats (s : DBState) : List (Tag × Nat) :=
  List.insertionSort usageLe
    (s.tags.map (fun t => (t, tagUsageCount s t.id)))

/-- Modelled from the spec: `getMostUsedTags(limit)` is called from
`loadTagSuggestions` in TagModal.tsx but its body is not under `src/`; the
spec (section 4.2) describes it as the usage aggregation ordered by
descending count then ascending name, truncated to `limit`, which is the
`getTagUsageStats` query of the source with a LIMIT applied. -/
def getMostUsedTags (limit : Nat) (s : DBState) : List (Tag × Nat) :=
  (getTagUsageStats s).take limit

/-- Well-formedness of a database state: the constraints the store enforces
on the `tags` table — rows are distinct, ids are a primary key, and names are
unique under the NOCASE collation. -/
structure WF (s : DBState) : Prop where
  tags_nodup : s.tags.Nodup
  tag_ids_unique : ∀ t ∈ s.tags, ∀ u ∈ s.tags, t.id = u.id → t = u
  tag_names_unique : ∀ t ∈ s.tags, ∀ u ∈ s.tags,
    nocaseEq t.name u.name = true → t = u

/-- A small concrete database used to instantiate the hypotheses of the
universally quantified theorems below: one document, one persisted highlight
h1, two tags, and one link attaching the tag "important" to h1. -/
def sampleDb : DBState where
  pdfs := [⟨1, "paper.pdf", "/tmp/paper.pdf", 0, 0⟩]
  highlights := [⟨1, 1, "h1", some "abc", none, some "note", some "e",
    ⟨⟨0, 0, 0, 0, 0, 0⟩, [], 2, none⟩, 2, 0⟩]
  tags := [⟨1, "important", 0⟩, ⟨2, "urgent", 0⟩]
  highlight_tags := [⟨"h1", 1⟩]

theorem nocaseEq_iff {a b : String} :
    nocaseEq a b = true ↔ a.data.map foldChar = b.data.map foldChar := by
  simp [nocaseEq]

theorem nocaseEq_self (a : String) : nocaseEq a a = true := by
  simp [nocaseEq]

theorem mem_le_maxId {x : Nat} {ids : List Nat} (h : x ∈ ids) :
    x ≤ maxId ids := by
  induction ids with
  | nil => cases h
  | cons a l ih =>
    rcases List.mem_cons.mp h with rfl | hmem
    · simp only [maxId, List.foldr_cons]
      omega
    · have := ih hmem
      simp only [maxId, List.foldr_cons] at this ⊢
      omega

theorem map_eq_self {α : Type} {l : List α} {f : α → α}
    (h : ∀ x ∈ l, f x = x) : l.map f = l := by
  induction l with
  | nil => rfl
  | cons a t ih =>
    simp only [List.map_cons]
    rw [h a (by simp), ih (fun x hx => h x (by simp [hx]))]

theorem nextPdfId_not_mem (s : DBState) (q : PdfRecord) (hq : q ∈ s.pdfs) :
    q.id ≠ nextPdfId s := by
  have : q.id ≤ maxId (s.pdfs.map PdfRecord.id) :=
    mem_le_maxId (List.mem_map_of_mem _ hq)
  unfold nextPdfId
  omega

/-- C3: for every highlight id absent from the highlights table,
`addHighlightTag` fails with the descriptive not-persisted error and leaves
the database unchanged: no tag row and no link row is created, because the
existence check runs before tag resolution and before link insertion. -/
theorem addHighlightTag_missing_highlight (now : Nat) (s : DBState)
    (highlightId tagName : String)
    (habsent : ∀ r ∈ s.highlights, r.highlight_id ≠ highlightId) :
    addHighlightTag now s highlightId tagName
      = (s, .error (.highlightNotFound highlightId)) := by
  have hex : highlightExists s highlightId = false := by
    simp only [highlightExists, List.any_eq_false]
    intro r hr
    simpa using habsent r hr
  simp [addHighlightTag, hex]

theorem addHighlightTag_missing_highlight_witness :
    addHighlightTag 7 sampleDb "h2" "important"
      = (sampleDb, .error (.highlightNotFound "h2")) :=
  addHighlightTag_missing_highlight 7 sampleDb "h2" "important"
    (by decide)

/-- C4: `updateHighlight` has merge semantics: if the highlight id is absent
the call silently returns the state unchanged; if it is present, the updated
row keeps `position.pageNumber` when the position patch does not supply one
(in particular when only `boundingRect` is patched), takes the patched
`boundingRect` when supplied, and keeps `content_text` / `content_image`
when the content patch leaves `text` / `image` unset. -/
theorem updateHighlight_merge_semantics (s : DBState) (highlightId : String)
    (p : PositionPatch) (c : ContentPatch) :
    (s.highlights.find? (fun r => r.highlight_id == highlightId) = none →
      updateHighlight s highlightId p c = s)
  ∧ (∀ cur, s.highlights.find? (fun r => r.highlight_id == highlightId)
        = some cur →
      ∀ r ∈ (updateHighlight s highlightId p c).highlights,
        r.highlight_id = highlightId →
        (p.pageNumber = none →
          r.position_data.pageNumber = cur.position_data.pageNumber)
      ∧ (∀ R, p.boundingRect = some R → r.position_data.boundingRect = R)
      ∧ (c.text = none → r.content_text = cur.content_text)
      ∧ (c.image = none → r.content_image = cur.content_image)) := by
  constructor
  · intro h
    simp [updateHighlight, h]
  · intro cur hcur r hr hrid
    simp only [updateHighlight, hcur, List.mem_map] at hr
    obtain ⟨a, _, ha⟩ := hr
    by_cases hid : (a.highlight_id == highlightId) = true
    · rw [if_pos hid] at ha
      subst ha
      refine ⟨?_, ?_, ?_, ?_⟩
      · intro hp
        simp [mergePosition, hp]
      · intro R hR
        simp [mergePosition, hR]
      · intro hc
        simp [hc]
      · intro hc
        simp [hc]
    · rw [if_neg hid] at ha
      subst ha
      exact absurd hrid (by simpa using hid)

theorem updateHighlight_merge_semantics_witness :
    (updateHighlight sampleDb "h2"
        { boundingRect := some ⟨1, 1, 1, 1, 1, 1⟩ } {} = sampleDb)
  ∧ ((⟨1, 1, "h1", some "abc", none, some "note", some "e",
        ⟨⟨1, 1, 1, 1, 1, 1⟩, [], 2, none⟩, 2, 0⟩ :
          HighlightRecord).position_data.pageNumber
      = (⟨1, 1, "h1", some "abc", none, some "note", some "e",
        ⟨⟨0, 0, 0, 0, 0, 0⟩, [], 2, none⟩, 2, 0⟩ :
          HighlightRecord).position_data.pageNumber) := by
  constructor
  · exact (updateHighlight_merge_semantics sampleDb "h2"
      { boundingRect := some ⟨1, 1, 1, 1, 1, 1⟩ } {}).1 (by decide)
  · exact ((updateHighlight_merge_semantics sampleDb "h1"
      { boundingRect := some ⟨1, 1, 1, 1, 1, 1⟩ } {}).2
      ⟨1, 1, "h1", some "abc", none, some "note", some "e",
        ⟨⟨0, 0, 0, 0, 0, 0⟩, [], 2, none⟩, 2, 0⟩ (by decide)
      ⟨1, 1, "h1", some "abc", none, some "note", some "e",
        ⟨⟨1, 1, 1, 1, 1, 1⟩, [], 2, none⟩, 2, 0⟩ (by decide) (by decide)).1 rfl

/-- C10: `updateHighlight` never modifies the page_number, comment_text,
comment_emoji or created_at columns of any highlight row, even when the
position patch carries a new pageNumber; consequently the stored page_number
column can disagree with the pageNumber inside the merged position_data, as
the concrete second conjunct shows (column 2 versus merged page 5). -/
theorem updateHighlight_frame (s : DBState) (highlightId : String)
    (p : PositionPatch) (c : ContentPatch) :
    ((updateHighlight s highlightId p c).highlights.map (fun r =>
        (r.page_number, r.comment_text, r.comment_emoji, r.created_at))
      = s.highlights.map (fun r =>
        (r.page_number, r.comment_text, r.comment_emoji, r.created_at)))
  ∧ ((updateHighlight sampleDb "h1" { pageNumber := some 5 } {}).highlights.map
        (fun r => (r.page_number, r.position_data.pageNumber)) = [(2, 5)]) := by
  constructor
  · unfold updateHighlight
    cases hf : s.highlights.find? (fun r => r.highlight_id == highlightId) with
    | none => rfl
    | some cur =>
      simp only [List.map_map]
      apply List.map_congr_left
      intro a _
      by_cases hid : a.highlight_id = highlightId
      · simp [hid]
      · simp [hid]
  · decide

/-- C6: the claim says `deletePdf` also removes the highlights of the deleted
document and their tag links; the source only executes
DELETE FROM pdfs WHERE id = ?, so on the concrete failing input below the
highlight row of the deleted document and its link row survive, and a
highlight row referencing the deleted document id 1 remains. -/
theorem deletePdf_no_cascade :
    (deletePdf sampleDb 1).pdfs = []
  ∧ (deletePdf sampleDb 1).highlights = sampleDb.highlights
  ∧ (deletePdf sampleDb 1).highlight_tags = sampleDb.highlight_tags
  ∧ ∃ r ∈ (deletePdf sampleDb 1).highlights, r.pdf_id = 1 := by
  refine ⟨by decide, by decide, by decide, ?_⟩
  exact ⟨⟨1, 1, "h1", some "abc", none, some "note", some "e",
    ⟨⟨0, 0, 0, 0, 0, 0⟩, [], 2, none⟩, 2, 0⟩, by decide, rfl⟩

/-- C5: `bulkDeleteTags` is atomic: an empty id set is a no-op; if either
DELETE fails the transaction rolls back and the state is exactly the
pre-call state (no tag row and no link row removed); on success every link
referencing one of the ids and every such tag row is deleted and nothing
else changes. -/
theorem bulkDeleteTags_atomic (failLinks failTags : Bool) (s : DBState)
    (tagIds : List Nat) :
    (tagIds = [] → bulkDeleteTags failLinks failTags s tagIds = (s, .ok ()))
  ∧ (∀ e, (bulkDeleteTags failLinks failTags s tagIds).2 = .error e →
      (bulkDeleteTags failLinks failTags s tagIds).1 = s)
  ∧ ((bulkDeleteTags failLinks failTags s tagIds).2 = .ok () →
      (bulkDeleteTags failLinks failTags s tagIds).1
        = { s with
            tags := s.tags.filter (fun t => !tagIds.contains t.id)
            highlight_tags := s.highlight_tags.filter (fun l =>
              !tagIds.contains l.tag_id) }) := by
  refine ⟨?_, ?_, ?_⟩
  · intro h
    subst h
    rfl
  · intro e
    unfold bulkDeleteTags
    by_cases h0 : tagIds.isEmpty
    · simp [h0]
    · simp only [h0, Bool.false_eq_true, if_false]
      cases failLinks <;> cases failTags <;> simp
  · unfold bulkDeleteTags
    by_cases h0 : tagIds.isEmpty
    · intro _
      have : tagIds = [] := List.isEmpty_iff.mp h0
      subst this
      simp [h0]
    · cases failLinks <;> cases failTags <;> simp [h0]

theorem bulkDeleteTags_atomic_witness :
    bulkDeleteTags true true sampleDb [] = (sampleDb, .ok ())
  ∧ (bulkDeleteTags false true sampleDb [1]).1 = sampleDb
  ∧ (bulkDeleteTags false false sampleDb [1]).1
      = { sampleDb with
          tags := sampleDb.tags.filter (fun t => !([1].contains t.id))
          highlight_tags := sampleDb.highlight_tags.filter (fun l =>
            !([1].contains l.tag_id)) } :=
  ⟨(bulkDeleteTags_atomic true true sampleDb []).1 rfl,
   (bulkDeleteTags_atomic false true sampleDb [1]).2.1 .injectedFailure
     (by decide),
   (bulkDeleteTags_atomic false false sampleDb [1]).2.2 (by decide)⟩

/-- C8: document registration reuses rows by path: registering a path not
yet in the store inserts a row with date_added = last_opened = now and
returns it; registering the same path again returns the same document id and
only bumps last_opened to the later timestamp, leaving id, name, path and
date_added unchanged. -/
theorem registerDocument_reuses_path (now1 now2 : Nat) (s : DBState)
    (name path : String) (hfresh : ∀ q ∈ s.pdfs, q.path ≠ path) :
    (registerDocument now1 s name path).2
        = ⟨nextPdfId s, name, path, now1, now1⟩
  ∧ (registerDocument now1 s name path).1.pdfs
        = s.pdfs ++ [⟨nextPdfId s, name, path, now1, now1⟩]
  ∧ (registerDocument now2 (registerDocument now1 s name path).1 name path).2.id
        = nextPdfId s
  ∧ (registerDocument now2 (registerDocument now1 s name path).1 name path).1.pdfs
        = s.pdfs ++ [⟨nextPdfId s, name, path, now1, now2⟩] := by
  have hfnone : s.pdfs.find? (fun p => p.path == path) = none := by
    simp only [List.find?_eq_none]
    intro q hq
    simpa using hfresh q hq
  have hnone : getPdfByPath s path = none := hfnone
  have h1 : registerDocument now1 s name path
      = ({ s with pdfs := s.pdfs ++ [⟨nextPdfId s, name, path, now1, now1⟩] },
         ⟨nextPdfId s, name, path, now1, now1⟩) := by
    simp [registerDocument, hnone, addPdf]
  have hs1 : (registerDocument now1 s name path).1
      = { s with pdfs := s.pdfs ++ [⟨nextPdfId s, name, path, now1, now1⟩] } := by
    rw [h1]
  have hfind2 : getPdfByPath
      ({ s with pdfs := s.pdfs ++ [⟨nextPdfId s, name, path, now1, now1⟩] }
        : DBState) path
      = some ⟨nextPdfId s, name, path, now1, now1⟩ := by
    simp only [getPdfByPath, List.find?_append, hfnone]
    simp
  have h2 : registerDocument now2
      ({ s with pdfs := s.pdfs ++ [⟨nextPdfId s, name, path, now1, now1⟩] }
        : DBState) name path
      = (updatePdfLastOpened now2
          ({ s with pdfs := s.pdfs ++ [⟨nextPdfId s, name, path, now1, now1⟩] }
            : DBState) (nextPdfId s),
         ⟨nextPdfId s, name, path, now1, now1⟩) := by
    simp [registerDocument, hfind2]
  have hmap : (s.pdfs ++ [(⟨nextPdfId s, name, path, now1, now1⟩ : PdfRecord)]).map
      (fun p : PdfRecord =>
        if p.id == nextPdfId s then { p with last_opened := now2 } else p)
      = s.pdfs ++ [⟨nextPdfId s, name, path, now1, now2⟩] := by
    rw [List.map_append]
    congr 1
    · apply map_eq_self
      intro q hq
      rw [if_neg]
      simp only [beq_iff_eq]
      exact nextPdfId_not_mem s q hq
    · simp
  refine ⟨by rw [h1], by rw [h1], ?_, ?_⟩
  · rw [hs1, h2]
  · rw [hs1, h2]
    simp only [updatePdfLastOpened]
    exact hmap

theorem nocaseEq_of_eq_of_eq {t u n : String} (h1 : nocaseEq t n = true)
    (h2 : nocaseEq u n = true) : nocaseEq t u = true := by
  rw [nocaseEq_iff] at h1 h2 ⊢
  exact h1.trans h2.symm

theorem addTag_existing (now : Nat) (s : DBState) (n : String) (t : Tag)
    (hwf : WF s) (ht : t ∈ s.tags) (hn : nocaseEq t.name n = true) :
    addTag now s n = (s, .ok t.id) := by
  have hany : s.tags.any (fun u => nocaseEq u.name n) = true :=
    List.any_eq_true.mpr ⟨t, ht, hn⟩
  have hins : insertTagRow now s n = (s, .error .uniqueTagName) := by
    simp [insertTagRow, hany]
  have hsome : (s.tags.find? (fun u => nocaseEq u.name n)).isSome := by
    rw [List.find?_isSome]
    exact ⟨t, ht, hn⟩
  obtain ⟨u, hu⟩ := Option.isSome_iff_exists.mp hsome
  have humem : u ∈ s.tags := List.mem_of_find?_eq_some hu
  have hup : nocaseEq u.name n = true := by
    have := List.find?_some hu
    simpa using this
  have hut : u = t := hwf.tag_names_unique u humem t ht
    (nocaseEq_of_eq_of_eq hup hn)
  have hget : getTagByName s n = some t := by
    rw [getTagByName, hu, hut]
  simp [addTag, hins, hget]

theorem WF_of_tags_eq {s' s : DBState} (h : s'.tags = s.tags) (hwf : WF s) :
    WF s' := by
  refine ⟨?_, ?_, ?_⟩ <;> rw [h]
  · exact hwf.tags_nodup
  · exact hwf.tag_ids_unique
  · exact hwf.tag_names_unique

theorem filter_length_one {α : Type} {l : List α} {p : α → Bool} {t : α}
    (hnd : l.Nodup) (ht : t ∈ l) (hp : p t = true)
    (huniq : ∀ x ∈ l, p x = true → x = t) : (l.filter p).length = 1 := by
  have hmem : t ∈ l.filter p := List.mem_filter.mpr ⟨ht, hp⟩
  have hall : ∀ x ∈ l.filter p, x = t := fun x hx =>
    huniq x (List.mem_filter.mp hx).1 (List.mem_filter.mp hx).2
  have hnd2 : (l.filter p).Nodup := hnd.filter p
  cases hfl : l.filter p with
  | nil =>
    rw [hfl] at hmem
    cases hmem
  | cons a rest =>
    rw [hfl] at hall hnd2
    cases rest with
    | nil => rfl
    | cons b rb =>
      exfalso
      have ha : a = t := hall a (by simp)
      have hb : b = t := hall b (by simp)
      have : a ∉ b :: rb := (List.nodup_cons.mp hnd2).1
      exact this (by rw [ha, hb]; simp)

/-- C9: `addTag` is idempotent: from any well-formed store, calling it twice
with the same string returns the same tag id both times (the second call hits
the uniqueness violation, which is caught and resolved to the existing row),
the second call leaves the store unchanged, and afterwards exactly one tag
row whose name matches the string (case-insensitively) exists. -/
theorem addTag_idempotent (now1 now2 : Nat) (s : DBState) (n : String)
    (hwf : WF s) :
    ∃ id : Nat,
      (addTag now1 s n).2 = .ok id
    ∧ addTag now2 (addTag now1 s n).1 n = ((addTag now1 s n).1, .ok id)
    ∧ ((addTag now1 s n).1.tags.filter
        (fun t => nocaseEq t.name n)).length = 1 := by
  by_cases hmatch : s.tags.any (fun u => nocaseEq u.name n) = true
  · obtain ⟨u, hu, hup⟩ := List.any_eq_true.mp hmatch
    have h1 : addTag now1 s n = (s, .ok u.id) :=
      addTag_existing now1 s n u hwf hu hup
    refine ⟨u.id, by rw [h1], ?_, ?_⟩
    · rw [h1]
      exact addTag_existing now2 s n u hwf hu hup
    · rw [h1]
      exact filter_length_one hwf.tags_nodup hu hup
        (fun x hx hpx => hwf.tag_names_unique x hx u hu
          (nocaseEq_of_eq_of_eq hpx hup))
  · have hmf : s.tags.any (fun u => nocaseEq u.name n) = false :=
      Bool.eq_false_iff.mpr hmatch
    have hins : insertTagRow now1 s n
        = ({ s with tags := s.tags ++ [⟨nextTagId s, n, now1⟩] },
           .ok (nextTagId s)) := by
      simp [insertTagRow, hmf]
    have h1 : addTag now1 s n
        = ({ s with tags := s.tags ++ [⟨nextTagId s, n, now1⟩] },
           .ok (nextTagId s)) := by
      simp [addTag, hins]
    have hforall : ∀ u ∈ s.tags, nocaseEq u.name n = false := by
      intro u hu
      have := List.any_eq_false.mp hmf u hu
      exact Bool.eq_false_iff.mpr this
    have hany2 : (s.tags ++ [(⟨nextTagId s, n, now1⟩ : Tag)]).any
        (fun u => nocaseEq u.name n) = true := by
      rw [List.any_eq_true]
      exact ⟨⟨nextTagId s, n, now1⟩, by simp, nocaseEq_self n⟩
    have hins2 : insertTagRow now2
        ({ s with tags := s.tags ++ [⟨nextTagId s, n, now1⟩] } : DBState) n
        = ({ s with tags := s.tags ++ [⟨nextTagId s, n, now1⟩] },
           .error .uniqueTagName) := by
      simp only [insertTagRow]
      rw [if_pos hany2]
    have hfind : (s.tags ++ [(⟨nextTagId s, n, now1⟩ : Tag)]).find?
        (fun u => nocaseEq u.name n) = some ⟨nextTagId s, n, now1⟩ := by
      rw [List.find?_append]
      rw [show s.tags.find? (fun u => nocaseEq u.name n) = none from
        List.find?_eq_none.mpr (fun u hu => by simp [hforall u hu])]
      simp [nocaseEq_self]
    have h2 : addTag now2
        ({ s with tags := s.tags ++ [⟨nextTagId s, n, now1⟩] } : DBState) n
        = ({ s with tags := s.tags ++ [⟨nextTagId s, n, now1⟩] },
           .ok (nextTagId s)) := by
      have hget : getTagByName
          ({ s with tags := s.tags ++ [⟨nextTagId s, n, now1⟩] } : DBState) n
          = some ⟨nextTagId s, n, now1⟩ := hfind
      simp [addTag, hins2, hget]
    refine ⟨nextTagId s, by rw [h1], by rw [h1]; exact h2, ?_⟩
    rw [h1]
    simp only [List.filter_append]
    rw [List.filter_eq_nil_iff.mpr
      (fun u hu => by simp [hforall u hu])]
    simp [nocaseEq_self]

theorem addTag_idempotent_witness :
    ∃ id : Nat,
      (addTag 1 sampleDb "urgent").2 = .ok id
    ∧ addTag 2 (addTag 1 sampleDb "urgent").1 "urgent"
        = ((addTag 1 sampleDb "urgent").1, .ok id)
    ∧ ((addTag 1 sampleDb "urgent").1.tags.filter
        (fun t => nocaseEq t.name "urgent")).length = 1 :=
  addTag_idempotent 1 2 sampleDb "urgent" ⟨by decide, by decide, by decide⟩

/-- C2: tag creation is duplicate-safe under case-insensitive comparison:
if a tag row whose name matches `n` case-insensitively already exists,
`addTag n` returns the existing id, creates no row and raises no error;
in particular, when that tag is already linked to a persisted highlight,
`addHighlightTag` with the differently-cased name is a complete no-op (no
new tag row, duplicate link swallowed), so the highlight keeps exactly the
tags it had. -/
theorem addTag_caseInsensitive_dedup (now : Nat) (s : DBState) (n : String)
    (t : Tag) (hwf : WF s) (ht : t ∈ s.tags)
    (hn : nocaseEq t.name n = true) :
    addTag now s n = (s, .ok t.id)
  ∧ ∀ hid : String, highlightExists s hid = true →
      (⟨hid, t.id⟩ : HighlightTag) ∈ s.highlight_tags →
      addHighlightTag now s hid n = (s, .ok ()) := by
  have h1 := addTag_existing now s n t hwf ht hn
  refine ⟨h1, ?_⟩
  intro hid hex hlink
  have hany : s.highlight_tags.any (fun l =>
      l.highlight_id == hid && l.tag_id == t.id) = true :=
    List.any_eq_true.mpr ⟨⟨hid, t.id⟩, hlink, by simp⟩
  simp [addHighlightTag, hex, h1, addLink, hany]

theorem addTag_caseInsensitive_dedup_witness :
    addTag 9 sampleDb "Important" = (sampleDb, .ok 1)
  ∧ addHighlightTag 9 sampleDb "h1" "Important" = (sampleDb, .ok ()) := by
  have h := addTag_caseInsensitive_dedup 9 sampleDb "Important"
    ⟨1, "important", 0⟩ ⟨by decide, by decide, by decide⟩
    (by decide) (by decide)
  exact ⟨h.1, h.2 "h1" (by decide) (by decide)⟩

theorem addLink_tags (s : DBState) (hid : String) (tid : Nat) :
    (addLink s hid tid).tags = s.tags := by
  unfold addLink
  split <;> rfl

theorem addLink_highlights (s : DBState) (hid : String) (tid : Nat) :
    (addLink s hid tid).highlights = s.highlights := by
  unfold addLink
  split <;> rfl

theorem addLink_mem (s : DBState) (hid : String) (tid : Nat)
    (l : HighlightTag) :
    l ∈ (addLink s hid tid).highlight_tags ↔
      l ∈ s.highlight_tags ∨ l = ⟨hid, tid⟩ := by
  unfold addLink
  by_cases hc : s.highlight_tags.any (fun x =>
      x.highlight_id == hid && x.tag_id == tid) = true
  · rw [if_pos hc]
    constructor
    · exact Or.inl
    · rintro (h | rfl)
      · exact h
      · obtain ⟨x, hx, hpx⟩ := List.any_eq_true.mp hc
        obtain ⟨h1, h2⟩ : x.highlight_id = hid ∧ x.tag_id = tid := by
          simpa using hpx
        have hxeq : x = (⟨hid, tid⟩ : HighlightTag) := by
          cases x
          simp_all
        rwa [← hxeq]
  · rw [if_neg hc]
    simp

theorem highlightExists_addLink (s : DBState) (hid' : String) (tid : Nat)
    (hid : String) :
    highlightExists (addLink s hid' tid) hid = highlightExists s hid := by
  unfold highlightExists
  rw [addLink_highlights]

theorem addHighlightTag_consistent (now : Nat) (s : DBState) (hid : String)
    (t : Tag) (hwf : WF s) (hex : highlightExists s hid = true)
    (ht : t ∈ s.tags) :
    addHighlightTag now s hid t.name = (addLink s hid t.id, .ok ()) := by
  have h1 := addTag_existing now s t.name t hwf ht (nocaseEq_self t.name)
  simp [addHighlightTag, hex, h1]

theorem applyTagAdds_consistent (now : Nat) (hid : String) (L : List Tag) :
    ∀ s : DBState, WF s → highlightExists s hid = true →
      (∀ t ∈ L, t ∈ s.tags) →
      (applyTagAdds now s hid L).2 = .ok ()
    ∧ (applyTagAdds now s hid L).1.tags = s.tags
    ∧ (applyTagAdds now s hid L).1.highlights = s.highlights
    ∧ (∀ l : HighlightTag,
        l ∈ (applyTagAdds now s hid L).1.highlight_tags ↔
          l ∈ s.highlight_tags ∨ ∃ t ∈ L, l = ⟨hid, t.id⟩) := by
  induction L with
  | nil =>
    intro s _ _ _
    simp [applyTagAdds]
  | cons t rest ih =>
    intro s hwf hex hL
    have hB := addHighlightTag_consistent now s hid t hwf hex (hL t (by simp))
    have hstep : applyTagAdds now s hid (t :: rest)
        = applyTagAdds now (addLink s hid t.id) hid rest := by
      simp [applyTagAdds, hB]
    have hwf2 : WF (addLink s hid t.id) :=
      WF_of_tags_eq (addLink_tags s hid t.id) hwf
    have hex2 : highlightExists (addLink s hid t.id) hid = true := by
      rw [highlightExists_addLink]
      exact hex
    have hrest : ∀ u ∈ rest, u ∈ (addLink s hid t.id).tags := by
      rw [addLink_tags]
      exact fun u hu => hL u (by simp [hu])
    obtain ⟨ih1, ih2, ih3, ih4⟩ := ih (addLink s hid t.id) hwf2 hex2 hrest
    rw [hstep]
    refine ⟨ih1, ?_, ?_, ?_⟩
    · rw [ih2, addLink_tags]
    · rw [ih3, addLink_highlights]
    · intro l
      rw [ih4 l, addLink_mem]
      simp only [List.mem_cons]
      constructor
      · rintro ((h | rfl) | ⟨u, hu, rfl⟩)
        · exact Or.inl h
        · exact Or.inr ⟨t, Or.inl rfl, rfl⟩
        · exact Or.inr ⟨u, Or.inr hu, rfl⟩
      · rintro (h | ⟨u, (rfl | hu), rfl⟩)
        · exact Or.inl (Or.inl h)
        · exact Or.inl (Or.inr rfl)
        · exact Or.inr ⟨u, hu, rfl⟩

theorem applyTagRemovals_spec (hid : String) (L : List Tag) :
    ∀ s : DBState,
      (applyTagRemovals s hid L).tags = s.tags
    ∧ (applyTagRemovals s hid L).highlights = s.highlights
    ∧ (∀ l : HighlightTag,
        l ∈ (applyTagRemovals s hid L).highlight_tags ↔
          l ∈ s.highlight_tags
          ∧ ∀ t ∈ L, ¬(l.highlight_id = hid ∧ l.tag_id = t.id)) := by
  induction L with
  | nil =>
    intro s
    refine ⟨rfl, rfl, ?_⟩
    simp [applyTagRemovals]
  | cons t rest ih =>
    intro s
    have hstep : applyTagRemovals s hid (t :: rest)
        = applyTagRemovals (removeHighlightTag s hid t.id) hid rest := rfl
    obtain ⟨ih1, ih2, ih3⟩ := ih (removeHighlightTag s hid t.id)
    rw [hstep]
    refine ⟨by rw [ih1]; rfl, by rw [ih2]; rfl, ?_⟩
    intro l
    rw [ih3 l]
    simp only [removeHighlightTag, List.mem_filter, List.mem_cons]
    constructor
    · rintro ⟨⟨hmem, hcond⟩, hrest⟩
      refine ⟨hmem, ?_⟩
      intro u hu
      rcases hu with rfl | hu
      · rintro ⟨hc1, hc2⟩
        rw [hc1, hc2] at hcond
        simp at hcond
      · exact hrest u hu
    · rintro ⟨hmem, hall⟩
      refine ⟨⟨hmem, ?_⟩, fun u hu => hall u (Or.inr hu)⟩
      rcases not_and_or.mp (hall t (Or.inl rfl)) with h | h <;> simp [h]

theorem mem_getHighlightTags {s : DBState} {hid : String} {t : Tag} :
    t ∈ getHighlightTags s hid ↔
      t ∈ s.tags ∧ ∃ l ∈ s.highlight_tags,
        l.highlight_id = hid ∧ l.tag_id = t.id := by
  unfold getHighlightTags
  rw [List.mem_insertionSort, List.mem_filter, List.any_eq_true]
  simp

theorem mem_tagsToAdd {s : DBState} {hid : String} {D : List Tag} {d : Tag} :
    d ∈ tagsToAdd s hid D ↔
      d ∈ D ∧ ∀ o ∈ getHighlightTags s hid, o.id ≠ d.id := by
  unfold tagsToAdd
  rw [List.mem_filter, Bool.not_eq_eq_eq_not, Bool.not_true, List.any_eq_false]
  apply and_congr_right
  intro _
  constructor
  · intro h o ho
    simpa using h o ho
  · intro h o ho
    simpa using h o ho

theorem mem_tagsToRemove {s : DBState} {hid : String} {D : List Tag}
    {o : Tag} :
    o ∈ tagsToRemove s hid D ↔
      o ∈ getHighlightTags s hid ∧ ∀ f ∈ D, f.id ≠ o.id := by
  unfold tagsToRemove
  rw [List.mem_filter, Bool.not_eq_eq_eq_not, Bool.not_true, List.any_eq_false]
  apply and_congr_right
  intro _
  constructor
  · intro h f hf
    simpa using h f hf
  · intro h f hf
    simpa using h f hf

/-- C1: tag-set reconciliation converges: for every well-formed store, every
persisted highlight and every desired tag list whose tags already exist as
rows of the tags table, computing the diffs by tag id and applying all
additions via `addHighlightTag` (by name) followed by all removals via
`removeHighlightTag` succeeds, and afterwards `getHighlightTags` holds
exactly the desired tag ids, regardless of the original tag set. -/
theorem reconcileHighlightTags_converges (now : Nat) (s : DBState)
    (hid : String) (D : List Tag) (hwf : WF s)
    (hex : highlightExists s hid = true) (hD : ∀ t ∈ D, t ∈ s.tags) :
    (reconcileHighlightTags now s hid D).2 = .ok ()
  ∧ ∀ i : Nat,
      (∃ t ∈ getHighlightTags (reconcileHighlightTags now s hid D).1 hid,
        t.id = i)
      ↔ ∃ t ∈ D, t.id = i := by
  have hsub : ∀ t ∈ tagsToAdd s hid D, t ∈ s.tags :=
    fun t ht => hD t (mem_tagsToAdd.mp ht).1
  obtain ⟨hok, htags, _, hmem⟩ :=
    applyTagAdds_consistent now hid (tagsToAdd s hid D) s hwf hex hsub
  have hP : applyTagAdds now s hid (tagsToAdd s hid D)
      = ((applyTagAdds now s hid (tagsToAdd s hid D)).1, .ok ()) := by
    rw [← hok]
  have hred : reconcileHighlightTags now s hid D
      = (applyTagRemovals (applyTagAdds now s hid (tagsToAdd s hid D)).1 hid
          (tagsToRemove s hid D), .ok ()) := by
    unfold reconcileHighlightTags
    rw [hP]
  obtain ⟨hr1, _, hr3⟩ := applyTagRemovals_spec hid (tagsToRemove s hid D)
    (applyTagAdds now s hid (tagsToAdd s hid D)).1
  have hS2tags :
      (applyTagRemovals (applyTagAdds now s hid (tagsToAdd s hid D)).1 hid
        (tagsToRemove s hid D)).tags = s.tags := hr1.trans htags
  refine ⟨by rw [hred], ?_⟩
  intro i
  have hgoal : getHighlightTags (reconcileHighlightTags now s hid D).1 hid
      = getHighlightTags
          (applyTagRemovals (applyTagAdds now s hid (tagsToAdd s hid D)).1 hid
            (tagsToRemove s hid D)) hid := by
    rw [hred]
  rw [hgoal]
  constructor
  · rintro ⟨t, htmem, rfl⟩
    obtain ⟨htags2, l, hl2, hlid, hltid⟩ := mem_getHighlightTags.mp htmem
    rw [hS2tags] at htags2
    obtain ⟨hl1, hNoRem⟩ := (hr3 l).mp hl2
    rcases (hmem l).mp hl1 with hls | ⟨u, huAdd, rfl⟩
    · have htorig : t ∈ getHighlightTags s hid :=
        mem_getHighlightTags.mpr ⟨htags2, l, hls, hlid, hltid⟩
      by_contra hcon
      push_neg at hcon
      have htRem : t ∈ tagsToRemove s hid D := by
        rw [mem_tagsToRemove]
        refine ⟨htorig, ?_⟩
        intro f hf heq
        exact hcon f hf heq
      exact hNoRem t htRem ⟨hlid, hltid⟩
    · exact ⟨u, (mem_tagsToAdd.mp huAdd).1, hltid⟩
  · rintro ⟨d, hdD, rfl⟩
    have hdtags2 : d ∈ (applyTagRemovals
        (applyTagAdds now s hid (tagsToAdd s hid D)).1 hid
        (tagsToRemove s hid D)).tags := by
      rw [hS2tags]
      exact hD d hdD
    by_cases hin : ∃ o ∈ getHighlightTags s hid, o.id = d.id
    · obtain ⟨o, ho, hoid⟩ := hin
      obtain ⟨_, l, hls, hlid, hltid⟩ := mem_getHighlightTags.mp ho
      have hl1 : l ∈ (applyTagAdds now s hid
          (tagsToAdd s hid D)).1.highlight_tags := (hmem l).mpr (Or.inl hls)
      have hl2 : l ∈ (applyTagRemovals
          (applyTagAdds now s hid (tagsToAdd s hid D)).1 hid
          (tagsToRemove s hid D)).highlight_tags := by
        rw [hr3 l]
        refine ⟨hl1, ?_⟩
        intro u hu ⟨_, hcid⟩
        have hune : ∀ f ∈ D, f.id ≠ u.id := (mem_tagsToRemove.mp hu).2
        exact hune d hdD (by rw [← hcid, hltid, hoid])
      exact ⟨d, mem_getHighlightTags.mpr
        ⟨hdtags2, l, hl2, hlid, by rw [hltid, hoid]⟩, rfl⟩
    · have hdAdd : d ∈ tagsToAdd s hid D := by
        rw [mem_tagsToAdd]
        refine ⟨hdD, ?_⟩
        intro o ho heq
        exact hin ⟨o, ho, heq⟩
      have hl1 : (⟨hid, d.id⟩ : HighlightTag) ∈ (applyTagAdds now s hid
          (tagsToAdd s hid D)).1.highlight_tags :=
        (hmem ⟨hid, d.id⟩).mpr (Or.inr ⟨d, hdAdd, rfl⟩)
      have hl2 : (⟨hid, d.id⟩ : HighlightTag) ∈ (applyTagRemovals
          (applyTagAdds now s hid (tagsToAdd s hid D)).1 hid
          (tagsToRemove s hid D)).highlight_tags := by
        rw [hr3]
        refine ⟨hl1, ?_⟩
        intro u hu ⟨_, hcid⟩
        have hune : ∀ f ∈ D, f.id ≠ u.id := (mem_tagsToRemove.mp hu).2
        exact hune d hdD (by simpa using hcid)
      exact ⟨d, mem_getHighlightTags.mpr
        ⟨hdtags2, ⟨hid, d.id⟩, hl2, rfl, rfl⟩, rfl⟩

theorem reconcileHighlightTags_converges_witness :
    (reconcileHighlightTags 5 sampleDb "h1" [⟨2, "urgent", 0⟩]).2 = .ok ()
  ∧ ((∃ t ∈ getHighlightTags
        (reconcileHighlightTags 5 sampleDb "h1" [⟨2, "urgent", 0⟩]).1 "h1",
        t.id = 2)
      ↔ ∃ t ∈ [(⟨2, "urgent", 0⟩ : Tag)], t.id = 2) := by
  have h := reconcileHighlightTags_converges 5 sampleDb "h1"
    [⟨2, "urgent", 0⟩] ⟨by decide, by decide, by decide⟩ (by decide)
    (by decide)
  exact ⟨h.1, h.2 2⟩

theorem registerDocument_reuses_path_witness :
    (registerDocument 3 sampleDb "a.pdf" "/x/a.pdf").2
        = ⟨2, "a.pdf", "/x/a.pdf", 3, 3⟩
  ∧ (registerDocument 3 sampleDb "a.pdf" "/x/a.pdf").1.pdfs
        = sampleDb.pdfs ++ [⟨2, "a.pdf", "/x/a.pdf", 3, 3⟩]
  ∧ (registerDocument 5 (registerDocument 3 sampleDb "a.pdf" "/x/a.pdf").1
        "a.pdf" "/x/a.pdf").2.id = 2
  ∧ (registerDocument 5 (registerDocument 3 sampleDb "a.pdf" "/x/a.pdf").1
        "a.pdf" "/x/a.pdf").1.pdfs
        = sampleDb.pdfs ++ [⟨2, "a.pdf", "/x/a.pdf", 3, 5⟩] :=
  registerDocument_reuses_path 3 5 sampleDb "a.pdf" "/x/a.pdf" (by decide)

theorem lexLe_total : ∀ a b : List Char, lexLe a b = true ∨ lexLe b a = true := by
  intro a
  induction a with
  | nil =>
    intro b
    exact Or.inl rfl
  | cons x xs ih =>
    intro b
    cases b with
    | nil => exact Or.inr rfl
    | cons y ys =>
      by_cases h1 : x.toNat < y.toNat
      · left
        simp [lexLe, h1]
      · by_cases h2 : y.toNat < x.toNat
        · right
          simp [lexLe, h2]
        · rcases ih ys with h | h
          · left
            simp [lexLe, h1, h2, h]
          · right
            simp [lexLe, h1, h2, h]

theorem lexLe_trans : ∀ a b c : List Char,
    lexLe a b = true → lexLe b c = true → lexLe a c = true := by
  intro a
  induction a with
  | nil =>
    intro b c _ _
    rfl
  | cons x xs ih =>
    intro b c hab hbc
    cases b with
    | nil => simp [lexLe] at hab
    | cons y ys =>
      cases c with
      | nil => simp [lexLe] at hbc
      | cons z zs =>
        by_cases hxy : x.toNat < y.toNat
        · by_cases hyz : y.toNat < z.toNat
          · simp [lexLe, show x.toNat < z.toNat by omega]
          · by_cases hzy : z.toNat < y.toNat
            · simp [lexLe, hyz, hzy] at hbc
            · simp [lexLe, show x.toNat < z.toNat by omega]
        · by_cases hyx : y.toNat < x.toNat
          · simp [lexLe, hxy, hyx] at hab
          · by_cases hyz : y.toNat < z.toNat
            · simp [lexLe, show x.toNat < z.toNat by omega]
            · by_cases hzy : z.toNat < y.toNat
              · simp [lexLe, hyz, hzy] at hbc
              · have hxz : ¬ x.toNat < z.toNat := by omega
                have hzx : ¬ z.toNat < x.toNat := by omega
                simp only [lexLe, hxy, hyx, if_neg, if_false] at hab
                simp only [lexLe, hyz, hzy, if_neg, if_false] at hbc
                simp only [lexLe, hxz, hzx, if_neg, if_false]
                exact ih ys zs hab hbc

theorem usageLe_total : ∀ a b : Tag × Nat, usageLe a b ∨ usageLe b a := by
  intro a b
  unfold usageLe
  rcases Nat.lt_trichotomy a.2 b.2 with h | h | h
  · right
    left
    exact h
  · rcases lexLe_total a.1.name.data b.1.name.data with hl | hl
    · left
      right
      exact ⟨h, hl⟩
    · right
      right
      exact ⟨h.symm, hl⟩
  · left
    left
    exact h

theorem usageLe_trans : ∀ a b c : Tag × Nat,
    usageLe a b → usageLe b c → usageLe a c := by
  intro a b c hab hbc
  unfold usageLe at hab hbc ⊢
  rcases hab with h1 | ⟨h1, hl1⟩ <;> rcases hbc with h2 | ⟨h2, hl2⟩
  · left
    omega
  · left
    omega
  · left
    omega
  · right
    exact ⟨h1.trans h2, lexLe_trans _ _ _ hl1 hl2⟩

/-- C7: for every database state, `getMostUsedTags limit` returns at most
`limit` entries, ordered by descending usage count with ties broken by
ascending name; each entry pairs a tag row of the store with its exact link
count, and the underlying (untruncated) aggregation is a permutation of all
tag rows paired with their link counts. -/
theorem getMostUsedTags_spec (s : DBState) (limit : Nat) :
    (getMostUsedTags limit s).length ≤ limit
  ∧ (getMostUsedTags limit s).Pairwise usageLe
  ∧ (∀ p ∈ getMostUsedTags limit s,
      p.1 ∈ s.tags ∧ p.2 = tagUsageCount s p.1.id)
  ∧ (getTagUsageStats s).Perm
      (s.tags.map (fun t => (t, tagUsageCount s t.id))) := by
  haveI hTot : IsTotal (Tag × Nat) usageLe := ⟨usageLe_total⟩
  haveI hTrans : IsTrans (Tag × Nat) usageLe := ⟨usageLe_trans⟩
  refine ⟨?_, ?_, ?_, ?_⟩
  · exact List.length_take_le limit _
  · have hs : (getTagUsageStats s).Pairwise usageLe :=
      List.sorted_insertionSort usageLe _
    exact hs.sublist (List.take_sublist _ _)
  · intro p hp
    have hp2 : p ∈ getTagUsageStats s := List.mem_of_mem_take hp
    unfold getTagUsageStats at hp2
    rw [List.mem_insertionSort, List.mem_map] at hp2
    obtain ⟨t, ht, hpt⟩ := hp2
    rw [← hpt]
    exact ⟨ht, rfl⟩
  · unfold getTagUsageStats
    exact List.perm_insertionSort usageLe _

theorem getMostUsedTags_spec_witness :
    (getMostUsedTags 1 sampleDb).length ≤ 1
  ∧ ((⟨1, "important", 0⟩ : Tag), 1).1 ∈ sampleDb.tags
  ∧ ((⟨1, "important", 0⟩ : Tag), 1).2
      = tagUsageCount sampleDb ((⟨1, "important", 0⟩ : Tag), 1).1.id :=
  ⟨(getMostUsedTags_spec sampleDb 1).1,
   ((getMostUsedTags_spec sampleDb 1).2.2.1 (⟨1, "important", 0⟩, 1)
     (by decide)).1,
   ((getMostUsedTags_spec sampleDb 1).2.2.1 (⟨1, "important", 0⟩, 1)
     (by decide)).2⟩

end RPH
